import Mathlib

/-!
Verification of the motion_library storage core: the content-addressed
asset/thumbnail storage layer (backend/storage.py, backend/models.py) and the
offline thumbnail generator (backend/scripts/generate_thumbnails.py).

Conventions of the embedding:
* Machine integers are `Nat` with explicit reduction modulo `2 ^ 32` where the
  source relies on 32-bit wraparound (inside MD5).
* Filesystem paths are lists of path components (`List String`); a component is
  a plain name (pathlib drops `"."` and empty components at construction,
  `".."` is kept as a literal component until resolution).
* Stateful code is explicit state passing: the filesystem trees the Python code
  walks are passed as explicit values.
-/

namespace MotionLib

/-! ### MD5 (the `hashlib.md5` capability used by both ID derivations)

Faithful executable model of MD5 (RFC 1321) over a list of byte values,
so that `hashlib.md5(s.encode()).hexdigest()` is a pure Lean function. -/

/-- Reduce to a 32-bit word. -/
def w32 (x : Nat) : Nat := x % 4294967296

/-- Left rotation of a 32-bit word; assumes `x < 2 ^ 32` and `0 < n < 32`. -/
def rotl (x n : Nat) : Nat := (x <<< n) % 4294967296 + x >>> (32 - n)

/-- MD5 round constants `K[i] = floor(2^32 * |sin(i+1)|)`. -/
def md5K : List Nat :=
  [0xd76aa478, 0xe8c7b756, 0x242070db, 0xc1bdceee,
   0xf57c0faf, 0x4787c62a, 0xa8304613, 0xfd469501,
   0x698098d8, 0x8b44f7af, 0xffff5bb1, 0x895cd7be,
   0x6b901122, 0xfd987193, 0xa679438e, 0x49b40821,
   0xf61e2562, 0xc040b340, 0x265e5a51, 0xe9b6c7aa,
   0xd62f105d, 0x02441453, 0xd8a1e681, 0xe7d3fbc8,
   0x21e1cde6, 0xc33707d6, 0xf4d50d87, 0x455a14ed,
   0xa9e3e905, 0xfcefa3f8, 0x676f02d9, 0x8d2a4c8a,
   0xfffa3942, 0x8771f681, 0x6d9d6122, 0xfde5380c,
   0xa4beea44, 0x4bdecfa9, 0xf6bb4b60, 0xbebfbc70,
   0x289b7ec6, 0xeaa127fa, 0xd4ef3085, 0x04881d05,
   0xd9d4d039, 0xe6db99e5, 0x1fa27cf8, 0xc4ac5665,
   0xf4292244, 0x432aff97, 0xab9423a7, 0xfc93a039,
   0x655b59c3, 0x8f0ccc92, 0xffeff47d, 0x85845dd1,
   0x6fa87e4f, 0xfe2ce6e0, 0xa3014314, 0x4e0811a1,
   0xf7537e82, 0xbd3af235, 0x2ad7d2bb, 0xeb86d391]

/-- MD5 per-round left-rotation amounts. -/
def md5S : List Nat :=
  [7, 12, 17, 22, 7, 12, 17, 22, 7, 12, 17, 22, 7, 12, 17, 22,
   5, 9, 14, 20, 5, 9, 14, 20, 5, 9, 14, 20, 5, 9, 14, 20,
   4, 11, 16, 23, 4, 11, 16, 23, 4, 11, 16, 23, 4, 11, 16, 23,
   6, 10, 15, 21, 6, 10, 15, 21, 6, 10, 15, 21, 6, 10, 15, 21]

/-- One MD5 round: `M` is the 16-word message block, `i` the round index. -/
def md5Step (M : List Nat) (i : Nat) (st : Nat × Nat × Nat × Nat) :
    Nat × Nat × Nat × Nat :=
  let a := st.1
  let b := st.2.1
  let c := st.2.2.1
  let d := st.2.2.2
  let fg : Nat × Nat :=
    if i < 16 then ((b &&& c) ||| ((4294967295 - b) &&& d), i)
    else if i < 32 then ((d &&& b) ||| ((4294967295 - d) &&& c), (5 * i + 1) % 16)
    else if i < 48 then (b ^^^ c ^^^ d, (3 * i + 5) % 16)
    else (c ^^^ (b ||| (4294967295 - d)), 7 * i % 16)
  let f := w32 (fg.1 + a + md5K.getD i 0 + M.getD fg.2 0)
  (d, w32 (b + rotl f (md5S.getD i 0)), b, c)

/-- Process one padded 64-byte chunk (given as 16 little-endian words). -/
def md5Chunk (st : Nat × Nat × Nat × Nat) (M : List Nat) :
    Nat × Nat × Nat × Nat :=
  let r := (List.range 64).foldl (fun s i => md5Step M i s) st
  (w32 (st.1 + r.1), w32 (st.2.1 + r.2.1), w32 (st.2.2.1 + r.2.2.1),
   w32 (st.2.2.2 + r.2.2.2))

/-- Group bytes into 32-bit little-endian words. -/
def wordsLE : List Nat → List Nat
  | b0 :: b1 :: b2 :: b3 :: rest =>
      (b0 + 256 * b1 + 65536 * b2 + 16777216 * b3) :: wordsLE rest
  | _ => []

/-- Split a byte list into 64-byte chunks (fuel-based so it reduces in the
kernel; fuel `l.length` is always sufficient since each step consumes a
nonempty prefix). -/
def chunks64Aux : Nat → List Nat → List (List Nat)
  | 0, _ => []
  | _, [] => []
  | fuel + 1, l => l.take 64 :: chunks64Aux fuel (l.drop 64)

/-- Split a byte list into 64-byte chunks. -/
def chunks64 (l : List Nat) : List (List Nat) := chunks64Aux l.length l

/-- MD5 padding: `0x80`, zeros to 56 mod 64, then the 64-bit bit length LE. -/
def md5Pad (msg : List Nat) : List Nat :=
  let k := (120 - (msg.length + 1) % 64) % 64
  msg ++ [128] ++ List.replicate k 0 ++
    (List.range 8).map (fun i => 8 * msg.length / 256 ^ i % 256)

/-- Little-endian bytes of a 32-bit word. -/
def le4 (n : Nat) : List Nat :=
  [n % 256, n / 256 % 256, n / 65536 % 256, n / 16777216 % 256]

/-- The 16-byte MD5 digest of a byte string. -/
def md5Digest (msg : List Nat) : List Nat :=
  let st := (chunks64 (md5Pad msg)).foldl
    (fun st ch => md5Chunk st (wordsLE ch))
    (1732584193, 4023233417, 2562383102, 271733878)
  le4 st.1 ++ le4 st.2.1 ++ le4 st.2.2.1 ++ le4 st.2.2.2

/-- Lowercase hex digit. -/
def hexDigit (n : Nat) : Char :=
  if n < 10 then Char.ofNat (48 + n) else Char.ofNat (87 + n)

/-- Two lowercase hex characters of a byte. -/
def byteHex (b : Nat) : List Char := [hexDigit (b / 16), hexDigit (b % 16)]

/-- Embeds `hashlib.md5(bytes).hexdigest()`. -/
def md5Hex (msg : List Nat) : String :=
  String.mk ((md5Digest msg).flatMap byteHex)

/-- UTF-8 encoding of one Unicode scalar value (Python `str.encode()`). -/
def utf8Char (c : Char) : List Nat :=
  let n := c.toNat
  if n < 128 then [n]
  else if n < 2048 then [192 + n / 64, 128 + n % 64]
  else if n < 65536 then [224 + n / 4096, 128 + n / 64 % 64, 128 + n % 64]
  else [240 + n / 262144, 128 + n / 4096 % 64, 128 + n / 64 % 64, 128 + n % 64]

/-- Embeds `s.encode()`: UTF-8 bytes of a string. -/
def utf8Bytes (s : String) : List Nat := s.data.flatMap utf8Char

set_option maxRecDepth 10000

/-! ### The two ID derivations (server and offline generator) -/

namespace StorageManager

/-- Embeds `StorageManager._get_file_id` (backend/storage.py line 26-28):
`hashlib.md5(filename.encode()).hexdigest()[:16]`. -/
def _get_file_id (filename : String) : String :=
  (md5Hex (utf8Bytes filename)).take 16

end StorageManager

namespace ThumbnailGenerator

/-- Embeds `ThumbnailGenerator.get_file_id` (backend/scripts/generate_thumbnails.py
line 56-63): `hashlib.md5(relative_path.encode()).hexdigest()[:16]`. -/
def get_file_id (relative_path : String) : String :=
  (md5Hex (utf8Bytes relative_path)).take 16

end ThumbnailGenerator

/-! ### Paths

A path is a list of components relative to some root.  `str()` of a pathlib
path joins components with `/`. -/

/-- Path components. -/
abbrev Comps := List String

/-- Embeds `str(path)` for a nonempty relative pathlib path. -/
def joinS (p : Comps) : String := String.intercalate "/" p

/-- Embeds `str.endswith(post)`.  (`String.endsWith` is `Substring`-based and does
not reduce in the kernel; this is the same function on the character list.) -/
def strEndsWith (s post : String) : Bool := post.data.isSuffixOf s.data

/-- Embeds `str.startswith(pre)`, on the character list. -/
def strStartsWith (s pre : String) : Bool := pre.data.isPrefixOf s.data

/-- Accumulator loop for `splitSlash`. -/
def splitSlashAux : List Char → List Char → List String
  | [], acc => [String.mk acc.reverse]
  | c :: cs, acc =>
    if c = '/' then String.mk acc.reverse :: splitSlashAux cs []
    else splitSlashAux cs (c :: acc)

/-- Embeds `s.split('/')`: split on every slash, keeping empty pieces. -/
def splitSlash (s : String) : List String := splitSlashAux s.data []

/-! ### Animated-render frame sampling (generate_thumbnails.py) -/

/-- Embeds `TRAJECTORY_FRAMES = 30` (generate_thumbnails.py line 41). -/
def TRAJECTORY_FRAMES : Nat := 30

/-- Embeds `np.linspace(0, stop, num, dtype=int)`: `num` evenly spaced values from
`0` to `stop` inclusive, truncated to integers.  The float computation is
idealized as exact rational arithmetic; truncation of the nonnegative values
is floor, i.e. `Nat` division. -/
def linspaceIdx (stop num : Nat) : List Nat :=
  (List.range num).map (fun i => i * stop / (num - 1))

/-- Embeds `frame_indices = np.linspace(0, total_frames - 1, TRAJECTORY_FRAMES,
dtype=int)` (generate_thumbnails.py line 240). -/
def render_frame_indices (total_frames : Nat) : List Nat :=
  linspaceIdx (total_frames - 1) TRAJECTORY_FRAMES

/-! ### Thumbnail lookup (storage.py `_find_thumbnail`, `get_model_thumbnail`)

State: a function from the `item_type` subdirectory name (`"models"` or
`"trajectories"`) to the recursive listing of the files under
`thumbnails/<item_type>`, each as a path relative to that subtree, in the
order `Path.rglob` visits them. -/

/-- The read-side extension priority order (storage.py line 80). -/
def thumbExts : List String := [".webp", ".png", ".jpg", ".gif"]

/-- First file (in rglob order) whose final component is `nm`: the result of
`thumbnail_dir.rglob(nm)` as consumed by the `for`/`return` loop. -/
def rglobHit (files : List Comps) (nm : String) : Option Comps :=
  files.find? (fun p => p.getLast? == some nm)

/-- The extension loop of `StorageManager._find_thumbnail`
(storage.py lines 80-85). -/
def findThumbAux (files : List Comps) (item_id item_type : String) :
    List String → Option String
  | [] => none
  | ext :: rest =>
    match rglobHit files (item_id ++ ext) with
    | some p => some (joinS ("thumbnails" :: item_type :: p))
    | none => findThumbAux files item_id item_type rest

/-- Embeds `StorageManager._find_thumbnail` (storage.py lines 66-85): try each
extension in priority order, return the first hit's path relative to the base
data directory. -/
def _find_thumbnail (thumbs : String → List Comps) (item_id item_type : String) :
    Option String :=
  findThumbAux (thumbs item_type) item_id item_type thumbExts

/-- The extension loop of `StorageManager.get_model_thumbnail`
(storage.py lines 350-352); returns the hit as a path (components under the
base data directory). -/
def getThumbAux (files : List Comps) (model_id : String) :
    List String → Option Comps
  | [] => none
  | ext :: rest =>
    match rglobHit files (model_id ++ ext) with
    | some p => some ("thumbnails" :: "models" :: p)
    | none => getThumbAux files model_id rest

/-- Embeds `StorageManager.get_model_thumbnail` (storage.py lines 338-354). -/
def get_model_thumbnail (thumbs : String → List Comps) (model_id : String) :
    Option Comps :=
  getThumbAux (thumbs "models") model_id thumbExts

/-! ### Trajectory store (storage.py)

State: the list of trajectory files `os.walk(self.trajectories_dir)` visits,
in visitation order.  Each file records the relative path of its directory
(`[]` for the root), its filename, its `stat` data, and its numeric payload. -/

/-- What `np.load` yields for a trajectory file (np.load sniffs content, not
the filename): a plain array (modelled by its shape), an NPZ bundle (the
`qpos` member's shape if that field is present, and the value of the
`frame_rate`/`framerate` field if present — as an exact rational since the
stored scalar is only compared for presence here), or a load failure
(corrupt data: `np.load` raises). -/
inductive NpPayload where
  | npy : List Nat → NpPayload
  | npz : Option (List Nat) → Option ℚ → NpPayload
  | corrupt : NpPayload
deriving DecidableEq

/-- One file visited by the trajectory walk. -/
structure TrajFile where
  dir : Comps
  name : String
  size : Nat
  mtime : Nat
  payload : NpPayload
deriving DecidableEq

/-- Path of the file relative to the trajectories root. -/
def TrajFile.relPath (f : TrajFile) : Comps := f.dir ++ [f.name]

/-- Embeds `Path.suffix == ext`: the name ends with `ext` and is not `ext` itself
(pathlib gives a dotfile like `".npz"` an empty suffix). -/
def pySuffixEq (name ext : String) : Bool := strEndsWith name ext && name != ext

/-- Embeds `filename.endswith(('.npy', '.npz'))` (storage.py line 101/130). -/
def trajExtOK (name : String) : Bool :=
  strEndsWith name ".npy" || strEndsWith name ".npz"

/-- Embeds `StorageManager._parse_trajectory_file` (storage.py lines 30-64),
dispatching on the filename suffix like the source.  Any exception inside the
`try` block (load failure, missing `qpos` giving a later attribute error,
`len()` of a 0-d array) is caught and yields `(None, None, None)`; an NPZ
bundle with no `qpos` but with a frame-rate field reaches its `return` with
that frame rate. -/
def _parse_trajectory_file (name : String) (p : NpPayload) :
    Option Nat × Option ℚ × Option Nat :=
  if pySuffixEq name ".npz" then
    match p with
    | .npz (some []) _ => (none, none, none)
    | .npz (some (n :: rest)) fr => (some n, fr, rest.head?)
    | .npz none fr => (none, fr, none)
    | _ => (none, none, none)
  else if pySuffixEq name ".npy" then
    match p with
    | .npy [] => (none, none, none)
    | .npy (n :: rest) => (some n, none, rest.head?)
    | _ => (none, none, none)
  else (none, none, none)

/-- Embeds `TrajectoryMetadata` (backend/models.py lines 10-18).  Note: the pydantic
model declares exactly these fields — there is no `thumbnail_path` field. -/
structure TrajectoryMetadata where
  id : String
  filename : String
  category : Option String
  file_size : Nat
  upload_date : Nat
  frame_count : Option Nat
  frame_rate : Option ℚ
  num_joints : Option Nat
deriving DecidableEq

/-- The constructor call `TrajectoryMetadata(id=..., ..., thumbnail_path=...)`
as issued by storage.py (lines 112-122): pydantic's default model config
ignores unknown keyword arguments, and models.py declares no `thumbnail_path`
field, so the `thumbnail_path` argument is silently discarded. -/
def TrajectoryMetadata.fromKwargs (id filename : String)
    (category : Option String) (file_size upload_date : Nat)
    (frame_count : Option Nat) (frame_rate : Option ℚ)
    (num_joints : Option Nat) (thumbnail_path : Option String) :
    TrajectoryMetadata :=
  ⟨id, filename, category, file_size, upload_date, frame_count, frame_rate,
   num_joints⟩

/-- Embeds `str(Path(root).relative_to(trajectories_dir))` mapped to the category:
`'.'` (the root) becomes `None`, otherwise the slash-joined relative path of
the directory (storage.py lines 93-94). -/
def categoryOfDir (dir : Comps) : Option String :=
  if dir = [] then none else some (joinS dir)

/-- Embeds `if category and current_category != category: continue`
(storage.py lines 97-98); an empty category string is falsy, hence no filter. -/
def categoryPass (category : Option String) (dir : Comps) : Bool :=
  match category with
  | none => true
  | some c => if c = "" then true else categoryOfDir dir == some c

/-- The metadata record built for one walked file (storage.py lines 102-122):
parse the payload, derive the ID from the relative path, look up a thumbnail,
and call the pydantic constructor (which drops `thumbnail_path`). -/
def trajEntryOf (thumbs : String → List Comps) (f : TrajFile) :
    TrajectoryMetadata :=
  let parsed := _parse_trajectory_file f.name f.payload
  let trajectory_id := StorageManager._get_file_id (joinS f.relPath)
  let thumbnail_path := _find_thumbnail thumbs trajectory_id "trajectories"
  TrajectoryMetadata.fromKwargs trajectory_id f.name (categoryOfDir f.dir)
    f.size f.mtime parsed.1 parsed.2.1 parsed.2.2 thumbnail_path

/-- Stable insertion into a list sorted by `upload_date` descending: the new
element goes before the first element with an equal-or-smaller date. -/
def insertDesc (x : TrajectoryMetadata) :
    List TrajectoryMetadata → List TrajectoryMetadata
  | [] => [x]
  | y :: ys =>
    if y.upload_date ≤ x.upload_date then x :: y :: ys else y :: insertDesc x ys

/-- Embeds `sorted(trajectories, key=lambda x: x.upload_date, reverse=True)`
(storage.py line 124): a stable sort, most recent first. -/
def sortByDateDesc (l : List TrajectoryMetadata) : List TrajectoryMetadata :=
  l.foldr insertDesc []

/-- Embeds `StorageManager.list_trajectories` (storage.py lines 87-124) over the
walked file list: keep `.npy`/`.npz` files in directories passing the
category filter, build each record, sort by modification time descending. -/
def list_trajectories (ts : List TrajFile) (thumbs : String → List Comps)
    (category : Option String) : List TrajectoryMetadata :=
  sortByDateDesc
    ((ts.filter (fun f => trajExtOK f.name && categoryPass category f.dir)).map
      (trajEntryOf thumbs))

/-- Embeds `StorageManager.get_trajectory` (storage.py lines 126-135): first walked
`.npy`/`.npz` file whose derived ID matches. -/
def get_trajectory (ts : List TrajFile) (trajectory_id : String) :
    Option Comps :=
  match ts with
  | [] => none
  | f :: rest =>
    if trajExtOK f.name
        && (StorageManager._get_file_id (joinS f.relPath) == trajectory_id)
    then some f.relPath
    else get_trajectory rest trajectory_id

/-- Embeds `file_path.unlink()`: remove the (first) file with the given relative
path from the walk. -/
def removeFirst (ts : List TrajFile) (p : Comps) : List TrajFile :=
  match ts with
  | [] => []
  | f :: rest => if f.relPath = p then rest else f :: removeFirst rest p

/-- Embeds `StorageManager.delete_trajectory` (storage.py lines 171-177): resolve the
ID, unlink on success; returns the success flag and the new state. -/
def delete_trajectory (ts : List TrajFile) (trajectory_id : String) :
    Bool × List TrajFile :=
  match get_trajectory ts trajectory_id with
  | some p => (true, removeFirst ts p)
  | none => (false, ts)

/-! ### Models store (storage.py)

State: the tree under the models root as a flat list of entries, each a path
of components relative to the models root together with a directory flag, in
the order the OS lists them (`iterdir`/`glob` order).  The models root is an
abstract absolute path `mroot` (components from the system root; resolved,
hence containing no `..`).  There are no symlinks, so `Path.resolve()` is
lexical normalization. -/

/-- One entry under the models root. -/
structure MEntry where
  path : Comps
  isDir : Bool
deriving DecidableEq

/-- The tree under the models root. -/
structure ModelsFS where
  entries : List MEntry
deriving DecidableEq

/-- Final component (name) of an entry. -/
def entryName (e : MEntry) : String := (e.path.getLast?).getD ""

/-- Embeds `glob('*.xml')` name test: ends with `.xml` and not hidden (glob patterns
that do not start with a dot skip dotfiles). -/
def xmlGlobName (nm : String) : Bool :=
  strEndsWith nm ".xml" && !(strStartsWith nm ".")

/-- Embeds `item.glob('*.xml')` for a first-level model directory `d`: direct
children of `d` (files and directories alike — `get_model` applies no
`is_file` filter) whose name matches `*.xml`, in entry order. -/
def globXml (fs : ModelsFS) (d : String) : List Comps :=
  (fs.entries.filter (fun e =>
    e.path.length == 2 && e.path.head? == some d && xmlGlobName (entryName e))).map
    (fun e => e.path)

/-- ID of a models-root-relative path, as `get_model` derives it:
`self._get_file_id(str(rel_path))`. -/
def fidOf (rel : Comps) : String := StorageManager._get_file_id (joinS rel)

/-- Embeds `self.models_dir.iterdir()`: the root-level entries, in entry order. -/
def rootEntries (fs : ModelsFS) : List MEntry :=
  fs.entries.filter (fun e => e.path.length == 1)

/-- The body of `get_model`'s loop for one root entry (storage.py lines
232-240): a directory contributes its first matching `*.xml` child, a root
file whose `suffix == '.xml'` contributes itself when its ID matches. -/
def get_model_hit (fs : ModelsFS) (model_id : String) (e : MEntry) :
    Option Comps :=
  if e.isDir then
    (globXml fs (entryName e)).find? (fun rel => fidOf rel == model_id)
  else if pySuffixEq (entryName e) ".xml" && (fidOf [entryName e] == model_id)
  then some [entryName e]
  else none

/-- The `get_model` scan over the root entries. -/
def get_model_scan (fs : ModelsFS) (model_id : String) :
    List MEntry → Option Comps
  | [] => none
  | e :: rest =>
    match get_model_hit fs model_id e with
    | some r => some r
    | none => get_model_scan fs model_id rest

/-- Embeds `StorageManager.get_model` (storage.py lines 229-241), returning the hit
as a path relative to the models root. -/
def get_model (fs : ModelsFS) (model_id : String) : Option Comps :=
  get_model_scan fs model_id (rootEntries fs)

/-- The candidate relative paths one root entry contributes to the
`get_model` scan. -/
def modelHitSpace (fs : ModelsFS) (e : MEntry) : List Comps :=
  if e.isDir then globXml fs (entryName e)
  else if pySuffixEq (entryName e) ".xml" then [[entryName e]] else []

/-- The candidate relative paths `get_model` compares IDs against, in scan
order. -/
def modelCandidates (fs : ModelsFS) : List Comps :=
  (rootEntries fs).flatMap (modelHitSpace fs)

/-! #### Path resolution for `get_file_in_model_directory` -/

/-- pathlib construction of the request string: absolute flag, and the
component list with empty components and `"."` dropped. -/
def parsePy (s : String) : Bool × Comps :=
  (strStartsWith s "/", (splitSlash s).filter (fun c => c != "" && c != "."))

/-- One step of lexical normalization: `".."` removes the last component
(the parent of the root is the root). -/
def normStep (acc : Comps) (c : String) : Comps :=
  if c = ".." then acc.dropLast else acc ++ [c]

/-- Lexical normalization of an absolute component list: `Path.resolve()`
in a symlink-free world. -/
def normA (l : Comps) : Comps := l.foldl normStep []

/-- Embeds `self.models_dir / file_relative_path` (storage.py line 309): joining an
absolute right operand replaces the left; the result keeps literal `..`
components. -/
def requestedPath (mroot : Comps) (file_relative_path : String) : Comps :=
  let pr := parsePy file_relative_path
  if pr.1 then pr.2 else mroot ++ pr.2

/-- Kind of a models-root-relative path: `some true` directory, `some false`
file, `none` absent.  The root itself is a directory. -/
def kindOfRel (fs : ModelsFS) (rel : Comps) : Option Bool :=
  if rel = [] then some true
  else (fs.entries.find? (fun e => e.path == rel)).map (fun e => e.isDir)

/-- Is the absolute path `p` an existing directory?  Ancestors of the models
root exist (the root was created); everything else on disk outside the models
root is irrelevant here — see the theorems: escaping paths are rejected
before any filesystem access. -/
def isDirAbs (mroot : Comps) (fs : ModelsFS) (p : Comps) : Bool :=
  if p.isPrefixOf mroot then true
  else if mroot.isPrefixOf p then kindOfRel fs (p.drop mroot.length) == some true
  else false

/-- Kind of an absolute normalized path. -/
def kindAbs (mroot : Comps) (fs : ModelsFS) (p : Comps) : Option Bool :=
  if p.isPrefixOf mroot then some true
  else if mroot.isPrefixOf p then kindOfRel fs (p.drop mroot.length)
  else none

/-- POSIX `stat` of a possibly-unnormalized absolute path (`Path.exists` /
`Path.is_file` on a path with literal `..`): each traversed prefix must be an
existing directory; returns the kind of the final normalized path. -/
def statKind (mroot : Comps) (fs : ModelsFS) : Comps → Comps → Option Bool
  | cur, [] => kindAbs mroot fs cur
  | cur, c :: rest =>
    if isDirAbs mroot fs cur then statKind mroot fs (normStep cur c) rest
    else none

/-- Embeds `StorageManager.get_file_in_model_directory` (storage.py lines 302-336):
resolve the model, join the requested relative path onto the models root,
reject if the resolved path escapes the models root, reject if the target is
not an existing file, then for a bare root model require exact equality with
the model file and for a directory model require the resolved path to lie
under the model's directory. -/
def get_file_in_model_directory (mroot : Comps) (fs : ModelsFS)
    (model_id file_relative_path : String) : Option Comps :=
  match get_model fs model_id with
  | none => none
  | some mainRel =>
    if mroot.isPrefixOf (normA (requestedPath mroot file_relative_path)) then
      if statKind mroot fs [] (requestedPath mroot file_relative_path)
          == some false then
        if mainRel.length = 1 then
          if requestedPath mroot file_relative_path = mroot ++ mainRel
          then some (requestedPath mroot file_relative_path) else none
        else
          if (normA (mroot ++ mainRel.dropLast)).isPrefixOf
              (normA (requestedPath mroot file_relative_path))
          then some (requestedPath mroot file_relative_path) else none
      else none
    else none

/-! ### Batch rendering (generate_thumbnails.py)

The physics/rendering engine is the spec's black box: the environment says
whether the model file exists, whether `mujoco.MjModel.from_xml_path`
succeeds, and whether the per-file render/encode calls succeed. -/

/-- Black-box outcomes of the external capabilities used by
`render_trajectory`. -/
structure RenderEnv where
  model_exists : Bool
  model_loads : Bool
  render_ok : Comps → Bool

/-- The `qpos` array `render_trajectory` ends up with, by payload kind:
`none` when loading raises (`np.load` failure, missing `'qpos'` key on an NPZ
bundle, or indexing a 0-d array). -/
def qposShape : NpPayload → Option (List Nat)
  | .npy s => some s
  | .npz (some s) _ => some s
  | .npz none _ => none
  | .corrupt => none

/-- Embeds `ThumbnailGenerator.render_trajectory` outcome for one file
(generate_thumbnails.py lines 171-290): model-existence and `.xml` checks
fail fast; every exception inside the `try` (load failure, missing `qpos`,
empty pose sequence making `qpos_data[idx]` raise, render/encode errors) is
caught and reported as `False`; otherwise `True`. -/
def render_trajectory (env : RenderEnv) (model_relative_path : String)
    (f : TrajFile) : Bool :=
  if !env.model_exists then false
  else if !pySuffixEq model_relative_path ".xml" then false
  else if !env.model_loads then false
  else match qposShape f.payload with
    | none => false
    | some [] => false
    | some (n :: _) => if n = 0 then false else env.render_ok f.relPath

/-- Embeds `folder_path.glob("*.npy")` then `glob("*.npz")` (generate_thumbnails.py
line 328): direct children of the folder with the extension, not hidden, in
walk order — all `.npy` files first, then all `.npz` files. -/
def folderGlob (ts : List TrajFile) (folder : Comps) (ext : String) :
    List TrajFile :=
  ts.filter (fun f =>
    f.dir == folder && strEndsWith f.name ext && !(strStartsWith f.name "."))

/-- The trajectory files the batch render processes. -/
def folderTrajFiles (ts : List TrajFile) (folder : Comps) : List TrajFile :=
  folderGlob ts folder ".npy" ++ folderGlob ts folder ".npz"

/-- Embeds `ThumbnailGenerator.render_trajectories_in_folder` (generate_thumbnails.py
lines 292-345): missing or non-directory folder and empty file lists report
`(0, 0)`; otherwise every file is processed in turn, successes are counted,
and `(success_count, total_count)` is returned. -/
def render_trajectories_in_folder (env : RenderEnv) (ts : List TrajFile)
    (folder_exists folder_is_dir : Bool) (folder : Comps)
    (model_relative_path : String) : Nat × Nat :=
  if !folder_exists then (0, 0)
  else if !folder_is_dir then (0, 0)
  else
    let files := folderTrajFiles ts folder
    if files.isEmpty then (0, 0)
    else
      (files.foldl
        (fun acc f =>
          if render_trajectory env model_relative_path f then acc + 1 else acc)
        0,
       files.length)


/-! ## Theorems -/

/-! ### MD5 regression checks (RFC 1321 test vectors) -/

example : md5Hex (utf8Bytes "abc") = "900150983cd24fb0d6963f7d28e17f72" := by rfl

example : md5Hex (utf8Bytes "") = "d41d8cd98f00b204e9800998ecf8427e" := by rfl

/-! ### Claim C1 -/

/-- C1: the server's ID derivation and the offline generator's ID derivation
are the same pure function of the relative-path string: both are total Lean
functions of `p` alone (no state, no time, no file content), and they are
extensionally equal, so the two independently implemented derivations produce
bit-identical output for every input on every call. -/
theorem file_id_derivations_agree :
    ∀ p : String, StorageManager._get_file_id p = ThumbnailGenerator.get_file_id p :=
  fun _ => rfl

/-! ### Claim C5 -/

/-- C5: animated-render sampling of a trajectory with `n` total frames at the
requested `K = TRAJECTORY_FRAMES` samples (`K < n`) yields exactly `K` source
indices, evenly spaced across `[0, n-1]` (index `i` maps to
`⌊i·(n-1)/(K-1)⌋`), with first index `0`, last index `n-1`, and the sequence
nondecreasing in time order. -/
theorem animated_sampling_even (n : Nat) (h : TRAJECTORY_FRAMES < n) :
    (render_frame_indices n).length = TRAJECTORY_FRAMES ∧
    (render_frame_indices n).head? = some 0 ∧
    (render_frame_indices n).getLast? = some (n - 1) ∧
    (render_frame_indices n).Pairwise (· ≤ ·) ∧
    (∀ i, i < TRAJECTORY_FRAMES →
      (render_frame_indices n).getD i 0 = i * (n - 1) / (TRAJECTORY_FRAMES - 1)) := by
  refine ⟨?_, ?_, ?_, ?_, ?_⟩
  · simp [render_frame_indices, linspaceIdx]
  · show (((List.range 30).map fun i => i * (n - 1) / 29).head? = some 0)
    rw [show (30 : Nat) = 29 + 1 from rfl, List.range_succ_eq_map]
    simp
  · show (((List.range 30).map fun i => i * (n - 1) / 29).getLast? = some (n - 1))
    rw [show (30 : Nat) = 29 + 1 from rfl, List.range_succ, List.map_append]
    simp [Nat.mul_div_cancel_left]
  · show (((List.range 30).map fun i => i * (n - 1) / 29).Pairwise (· ≤ ·))
    refine List.Pairwise.map _ (fun a b hab => ?_) (List.pairwise_lt_range 30)
    exact Nat.div_le_div_right (Nat.mul_le_mul_right _ (Nat.le_of_lt hab))
  · intro i hi
    show ((List.range 30).map fun i => i * (n - 1) / 29).getD i 0
        = i * (n - 1) / 29
    have hi' : i < 30 := hi
    rw [List.getD_eq_getElem?_getD, List.getElem?_map, List.getElem?_range hi']
    rfl

/-- Witness for C5 at `n = 100`. -/
theorem animated_sampling_even_witness :
    TRAJECTORY_FRAMES < 100 ∧
    ((render_frame_indices 100).length = TRAJECTORY_FRAMES ∧
     (render_frame_indices 100).head? = some 0 ∧
     (render_frame_indices 100).getLast? = some 99 ∧
     (render_frame_indices 100).Pairwise (· ≤ ·) ∧
     (∀ i, i < TRAJECTORY_FRAMES →
       (render_frame_indices 100).getD i 0 = i * 99 / (TRAJECTORY_FRAMES - 1))) :=
  ⟨by decide, animated_sampling_even 100 (by decide)⟩

/-! ### Claim C6 -/

/-- C6: thumbnail lookup tries extensions in the fixed order webp, png, jpg,
gif and surfaces exactly the first hit: each conjunct gives one case of the
priority cascade (for `_find_thumbnail`), ending with the no-hit case; in
particular when a `.png` hit exists and no `.webp` hit does (e.g. both `.png`
and `.gif` present), the `.png` file is the one returned — also shown for
`get_model_thumbnail`. -/
theorem thumbnail_extension_priority (thumbs : String → List Comps)
    (item_id item_type : String) :
    (∀ p, rglobHit (thumbs item_type) (item_id ++ ".webp") = some p →
      _find_thumbnail thumbs item_id item_type
        = some (joinS ("thumbnails" :: item_type :: p))) ∧
    (rglobHit (thumbs item_type) (item_id ++ ".webp") = none →
      ∀ p, rglobHit (thumbs item_type) (item_id ++ ".png") = some p →
      _find_thumbnail thumbs item_id item_type
        = some (joinS ("thumbnails" :: item_type :: p))) ∧
    (rglobHit (thumbs item_type) (item_id ++ ".webp") = none →
      rglobHit (thumbs item_type) (item_id ++ ".png") = none →
      ∀ p, rglobHit (thumbs item_type) (item_id ++ ".jpg") = some p →
      _find_thumbnail thumbs item_id item_type
        = some (joinS ("thumbnails" :: item_type :: p))) ∧
    (rglobHit (thumbs item_type) (item_id ++ ".webp") = none →
      rglobHit (thumbs item_type) (item_id ++ ".png") = none →
      rglobHit (thumbs item_type) (item_id ++ ".jpg") = none →
      ∀ p, rglobHit (thumbs item_type) (item_id ++ ".gif") = some p →
      _find_thumbnail thumbs item_id item_type
        = some (joinS ("thumbnails" :: item_type :: p))) ∧
    (rglobHit (thumbs item_type) (item_id ++ ".webp") = none →
      rglobHit (thumbs item_type) (item_id ++ ".png") = none →
      rglobHit (thumbs item_type) (item_id ++ ".jpg") = none →
      rglobHit (thumbs item_type) (item_id ++ ".gif") = none →
      _find_thumbnail thumbs item_id item_type = none) ∧
    (rglobHit (thumbs "models") (item_id ++ ".webp") = none →
      ∀ p, rglobHit (thumbs "models") (item_id ++ ".png") = some p →
      get_model_thumbnail thumbs item_id
        = some ("thumbnails" :: "models" :: p)) := by
  refine ⟨?_, ?_, ?_, ?_, ?_, ?_⟩
  · intro p hp
    simp [_find_thumbnail, thumbExts, findThumbAux, hp]
  · intro hw p hp
    simp [_find_thumbnail, thumbExts, findThumbAux, hw, hp]
  · intro hw hpng p hp
    simp [_find_thumbnail, thumbExts, findThumbAux, hw, hpng, hp]
  · intro hw hpng hj p hp
    simp [_find_thumbnail, thumbExts, findThumbAux, hw, hpng, hj, hp]
  · intro hw hpng hj hg
    simp [_find_thumbnail, thumbExts, findThumbAux, hw, hpng, hj, hg]
  · intro hw p hp
    simp [get_model_thumbnail, thumbExts, getThumbAux, hw, hp]

/-- Witness for C6: a state with both a `.png` and a `.gif` thumbnail for the
same ID (and no `.webp`): the `.png` one is returned. -/
theorem thumbnail_extension_priority_witness :
    _find_thumbnail
      (fun ty => if ty = "trajectories" then [["cat", "abc.gif"], ["cat", "abc.png"]] else [])
      "abc" "trajectories" = some "thumbnails/trajectories/cat/abc.png" := by
  have h := thumbnail_extension_priority
    (fun ty => if ty = "trajectories" then [["cat", "abc.gif"], ["cat", "abc.png"]] else [])
    "abc" "trajectories"
  exact h.2.1 (by decide) ["cat", "abc.png"] (by decide)

/-! ### Sorting helper lemmas -/

lemma insertDesc_perm (x : TrajectoryMetadata) (l : List TrajectoryMetadata) :
    (insertDesc x l).Perm (x :: l) := by
  induction l with
  | nil => exact List.Perm.refl _
  | cons y ys ih =>
    unfold insertDesc
    split
    · exact List.Perm.refl _
    · exact ((ih.cons y).trans (List.Perm.swap x y ys))

lemma sortByDateDesc_perm (l : List TrajectoryMetadata) :
    (sortByDateDesc l).Perm l := by
  induction l with
  | nil => exact List.Perm.refl _
  | cons a l ih =>
    have h : sortByDateDesc (a :: l) = insertDesc a (sortByDateDesc l) := rfl
    rw [h]
    exact (insertDesc_perm a (sortByDateDesc l)).trans (ih.cons a)

lemma mem_list_trajectories_of_mem (ts : List TrajFile)
    (thumbs : String → List Comps) (f : TrajFile) (hf : f ∈ ts)
    (hext : trajExtOK f.name = true) :
    trajEntryOf thumbs f ∈ list_trajectories ts thumbs none := by
  unfold list_trajectories
  rw [(sortByDateDesc_perm _).mem_iff]
  refine List.mem_map_of_mem _ (List.mem_filter.mpr ⟨hf, ?_⟩)
  simp [hext, categoryPass]

lemma mem_list_trajectories_src (ts : List TrajFile)
    (thumbs : String → List Comps) (e : TrajectoryMetadata)
    (he : e ∈ list_trajectories ts thumbs none) :
    ∃ g ∈ ts, trajExtOK g.name = true ∧ e = trajEntryOf thumbs g := by
  unfold list_trajectories at he
  rw [(sortByDateDesc_perm _).mem_iff] at he
  obtain ⟨g, hg, rfl⟩ := List.mem_map.mp he
  obtain ⟨hgts, hcond⟩ := List.mem_filter.mp hg
  exact ⟨g, hgts, ((Bool.and_eq_true _ _).mp hcond).1, rfl⟩

/-! ### Claim C4 (code bug) -/

/-- C4: the listing result is entirely independent of the thumbnail tree —
for any two thumbnail states the returned metadata lists are identical.
`list_trajectories` does compute `thumbnail_path` and passes it to the
`TrajectoryMetadata` constructor, but models.py declares no such field and
pydantic's default config drops unknown keyword arguments, so the returned
metadata never contains a thumbnail pointer, even when a thumbnail file
exists for the asset's ID. -/
theorem listing_carries_no_thumbnail_pointer :
    ∀ (ts : List TrajFile) (category : Option String)
      (thumbs thumbs' : String → List Comps),
      list_trajectories ts thumbs category = list_trajectories ts thumbs' category :=
  fun _ _ _ _ => rfl

/-! ### Claim C7 (corrected) -/

/-- C7 counterexample: for a trajectory file nested two levels deep at
`a/b/f.npy`, the listed category is the full relative directory path
`"a/b"`, not the immediate parent directory name `"b"` — so the claim as
stated fails for files nested more than one level below the root. -/
theorem category_nested_counterexample :
    (list_trajectories [(⟨["a", "b"], "f.npy", 7, 3, .npy [5, 4]⟩ : TrajFile)]
        (fun _ => []) none).map (fun e => e.category) = [some "a/b"] ∧
    ("a/b" : String) ≠ "b" := by
  constructor
  · rfl
  · decide

/-- C7 amended: every trajectory file the listing walk visits is listed with
category equal to the slash-joined path of its parent directory relative to
the trajectories root (`None` for files directly at the root); this equals
the immediate parent directory name exactly when the file sits exactly one
level below the root. -/
theorem category_is_parent_relative_path (ts : List TrajFile)
    (thumbs : String → List Comps) (f : TrajFile) (hf : f ∈ ts)
    (hext : trajExtOK f.name = true) :
    trajEntryOf thumbs f ∈ list_trajectories ts thumbs none ∧
    (trajEntryOf thumbs f).category
      = (if f.dir = [] then none else some (joinS f.dir)) ∧
    (∀ e ∈ list_trajectories ts thumbs none, ∃ g ∈ ts,
      trajExtOK g.name = true ∧ e = trajEntryOf thumbs g ∧
      e.category = (if g.dir = [] then none else some (joinS g.dir))) ∧
    (∀ d, f.dir = [d] → (trajEntryOf thumbs f).category = some d) := by
  refine ⟨mem_list_trajectories_of_mem ts thumbs f hf hext, rfl, ?_, ?_⟩
  · intro e he
    obtain ⟨g, hg, hgx, rfl⟩ := mem_list_trajectories_src ts thumbs e he
    exact ⟨g, hg, hgx, rfl, rfl⟩
  · intro d hd
    show categoryOfDir f.dir = some d
    rw [hd]
    rfl

/-- Witness for C7's amended claim at a one-level-deep file. -/
theorem category_is_parent_relative_path_witness :
    (trajEntryOf (fun _ => [])
        (⟨["loco"], "w.npy", 3, 9, .npy [2, 2]⟩ : TrajFile)).category
      = some "loco" :=
  (category_is_parent_relative_path
      [(⟨["loco"], "w.npy", 3, 9, .npy [2, 2]⟩ : TrajFile)] (fun _ => [])
      (⟨["loco"], "w.npy", 3, 9, .npy [2, 2]⟩ : TrajFile)
      (by decide) (by decide)).2.2.2 "loco" rfl

/-! ### Claim C9 (corrected) -/

lemma parse_unparseable_none (name : String) (p : NpPayload)
    (h : p = .corrupt ∨ ∃ fr, p = .npz none fr) :
    (_parse_trajectory_file name p).1 = none ∧
    (_parse_trajectory_file name p).2.2 = none := by
  rcases h with h | ⟨fr, h⟩ <;> subst h <;>
    unfold _parse_trajectory_file <;> split_ifs <;> simp

/-- C9 counterexample: an NPZ trajectory file with no pose-sequence field but
with an explicit frame-rate field of 30 is listed with `frame_rate = 30`, not
`frame_rate = None` — so the claim that frame count, frame rate and joint
count all come back `None` for such a file is false. -/
theorem npz_missing_qpos_counterexample :
    (list_trajectories
        [(⟨[], "data.npz", 11, 2, .npz none (some 30)⟩ : TrajFile)]
        (fun _ => []) none).map
      (fun e => (e.frame_count, e.frame_rate, e.num_joints))
      = [(none, some (30 : ℚ), none)] ∧
    (some (30 : ℚ) : Option ℚ) ≠ none := by
  constructor
  · rfl
  · decide

/-- C9 amended: a trajectory file whose payload cannot be parsed (corrupt
data, or an NPZ bundle missing the pose-sequence field) is still included in
the listing — the parse failure is absorbed, the call neither raises nor
skips the file — and the entry carries `frame_count = None` and
`num_joints = None`.  For a corrupt file `frame_rate` is `None` as well, but
for an `.npz`-suffixed bundle missing `qpos` the frame rate is passed
through: it equals the bundle's frame-rate field (when present) rather than
`None`. -/
theorem unparseable_file_still_listed (ts : List TrajFile)
    (thumbs : String → List Comps) (f : TrajFile) (hf : f ∈ ts)
    (hext : trajExtOK f.name = true)
    (hbad : f.payload = .corrupt ∨ ∃ fr, f.payload = .npz none fr) :
    trajEntryOf thumbs f ∈ list_trajectories ts thumbs none ∧
    (trajEntryOf thumbs f).frame_count = none ∧
    (trajEntryOf thumbs f).num_joints = none ∧
    (f.payload = .corrupt → (trajEntryOf thumbs f).frame_rate = none) ∧
    (∀ fr, f.payload = .npz none fr → pySuffixEq f.name ".npz" = true →
      (trajEntryOf thumbs f).frame_rate = fr) := by
  refine ⟨mem_list_trajectories_of_mem ts thumbs f hf hext,
    (parse_unparseable_none f.name f.payload hbad).1,
    (parse_unparseable_none f.name f.payload hbad).2, ?_, ?_⟩
  · intro hc
    show (_parse_trajectory_file f.name f.payload).2.1 = none
    rw [hc]
    unfold _parse_trajectory_file
    split_ifs <;> rfl
  · intro fr hfr hsfx
    show (_parse_trajectory_file f.name f.payload).2.1 = fr
    rw [hfr]
    unfold _parse_trajectory_file
    simp [hsfx]

/-- Witness for C9's amended claim: a corrupt `.npy` file. -/
theorem unparseable_file_still_listed_witness :
    trajEntryOf (fun _ => []) (⟨[], "bad.npy", 5, 1, .corrupt⟩ : TrajFile)
      ∈ list_trajectories [(⟨[], "bad.npy", 5, 1, .corrupt⟩ : TrajFile)]
        (fun _ => []) none ∧
    (trajEntryOf (fun _ => [])
        (⟨[], "bad.npy", 5, 1, .corrupt⟩ : TrajFile)).frame_count = none ∧
    (trajEntryOf (fun _ => [])
        (⟨[], "bad.npy", 5, 1, .corrupt⟩ : TrajFile)).frame_rate = none :=
  ⟨(unparseable_file_still_listed
      [(⟨[], "bad.npy", 5, 1, .corrupt⟩ : TrajFile)] (fun _ => [])
      (⟨[], "bad.npy", 5, 1, .corrupt⟩ : TrajFile)
      (by decide) (by decide) (Or.inl rfl)).1,
   (unparseable_file_still_listed
      [(⟨[], "bad.npy", 5, 1, .corrupt⟩ : TrajFile)] (fun _ => [])
      (⟨[], "bad.npy", 5, 1, .corrupt⟩ : TrajFile)
      (by decide) (by decide) (Or.inl rfl)).2.1,
   (unparseable_file_still_listed
      [(⟨[], "bad.npy", 5, 1, .corrupt⟩ : TrajFile)] (fun _ => [])
      (⟨[], "bad.npy", 5, 1, .corrupt⟩ : TrajFile)
      (by decide) (by decide) (Or.inl rfl)).2.2.2.1 rfl⟩

/-! ### Claim C8 -/

lemma foldl_count_if {α : Type} (P : α → Bool) (l : List α) :
    ∀ acc : Nat,
      l.foldl (fun acc f => if P f then acc + 1 else acc) acc = acc + l.countP P := by
  induction l with
  | nil => intro acc; simp
  | cons a l ih =>
    intro acc
    by_cases h : P a = true <;>
      simp [List.countP_cons, h, ih] <;> omega

/-- C8: batch-rendering a folder of trajectory files processes every file the
folder glob found: no outcome of one file affects another, no exception
escapes (the embedding of `render_trajectory` is a total function returning
`False` on every caught failure — model/trajectory load failure or empty pose
sequence), and the final result is exactly
(number of files that render successfully, total number of trajectory files
found). -/
theorem batch_render_success_total (env : RenderEnv) (ts : List TrajFile)
    (folder : Comps) (model_relative_path : String) :
    render_trajectories_in_folder env ts true true folder model_relative_path
      = ((folderTrajFiles ts folder).countP
           (render_trajectory env model_relative_path),
         (folderTrajFiles ts folder).length) := by
  unfold render_trajectories_in_folder
  by_cases h : (folderTrajFiles ts folder).isEmpty = true
  · rw [List.isEmpty_iff] at h
    simp [h]
  · simp only [Bool.not_true, Bool.false_eq_true, if_false, h]
    rw [foldl_count_if]
    simp

/-! ### Claim C3 -/

lemma get_trajectory_none (ts : List TrajFile) (tid : String)
    (h : ∀ g ∈ ts, trajExtOK g.name = true →
      StorageManager._get_file_id (joinS g.relPath) ≠ tid) :
    get_trajectory ts tid = none := by
  induction ts with
  | nil => rfl
  | cons g rest ih =>
    have hg : (trajExtOK g.name
        && (StorageManager._get_file_id (joinS g.relPath) == tid)) = false := by
      cases hx : trajExtOK g.name with
      | false => rfl
      | true =>
        have hne := h g (List.mem_cons_self g rest) hx
        simp [hne]
    unfold get_trajectory
    rw [hg]
    simp only [Bool.false_eq_true, if_false]
    exact ih (fun g hg hx => h g (List.mem_cons_of_mem _ hg) hx)

lemma get_trajectory_found (ts : List TrajFile) (f : TrajFile) (hf : f ∈ ts)
    (hext : trajExtOK f.name = true)
    (hnd : (ts.map TrajFile.relPath).Nodup)
    (huniq : ∀ g ∈ ts, trajExtOK g.name = true →
      StorageManager._get_file_id (joinS g.relPath)
        = StorageManager._get_file_id (joinS f.relPath) → g.relPath = f.relPath) :
    get_trajectory ts (StorageManager._get_file_id (joinS f.relPath))
      = some f.relPath := by
  induction ts with
  | nil => cases hf
  | cons g rest ih =>
    by_cases hc : (trajExtOK g.name
        && (StorageManager._get_file_id (joinS g.relPath)
            == StorageManager._get_file_id (joinS f.relPath))) = true
    · have hx := (Bool.and_eq_true _ _).mp hc
      have hid : StorageManager._get_file_id (joinS g.relPath)
          = StorageManager._get_file_id (joinS f.relPath) := beq_iff_eq.mp hx.2
      have heq := huniq g (List.mem_cons_self g rest) hx.1 hid
      unfold get_trajectory
      rw [hc, if_pos rfl, heq]
    · have hfg : f ≠ g := by
        rintro rfl
        exact hc (by simp [hext])
      have hf' : f ∈ rest := by
        rcases List.mem_cons.mp hf with h | h
        · exact absurd h.symm (fun h2 => hfg h2.symm)
        · exact h
      unfold get_trajectory
      rw [Bool.not_eq_true] at hc
      rw [hc]
      simp only [Bool.false_eq_true, if_false]
      exact ih hf' (List.Nodup.of_cons hnd)
        (fun g hg hx => huniq g (List.mem_cons_of_mem _ hg) hx)

lemma mem_of_mem_removeFirst (ts : List TrajFile) (p : Comps) :
    ∀ g ∈ removeFirst ts p, g ∈ ts := by
  induction ts with
  | nil => intro g hg; cases hg
  | cons h rest ih =>
    intro g hg
    unfold removeFirst at hg
    split at hg
    · exact List.mem_cons_of_mem _ hg
    · rcases List.mem_cons.mp hg with rfl | hg
      · exact List.mem_cons_self _ _
      · exact List.mem_cons_of_mem _ (ih g hg)

lemma removeFirst_relPath_ne (ts : List TrajFile) (p : Comps)
    (hnd : (ts.map TrajFile.relPath).Nodup) :
    ∀ g ∈ removeFirst ts p, g.relPath ≠ p := by
  induction ts with
  | nil => intro g hg; cases hg
  | cons h rest ih =>
    intro g hg
    unfold removeFirst at hg
    split at hg
    case isTrue heq =>
      intro hgp
      have : h.relPath ∈ rest.map TrajFile.relPath := by
        rw [heq, ← hgp]
        exact List.mem_map_of_mem _ hg
      exact (List.nodup_cons.mp (by simpa using hnd)).1 this
    case isFalse hne =>
      rcases List.mem_cons.mp hg with rfl | hg
      · exact hne
      · exact ih (List.Nodup.of_cons hnd) g hg

lemma find?_eq_some_of_unique {α : Type} (p : α → Bool) (l : List α) (c : α)
    (hc : c ∈ l) (hpc : p c = true) (hu : ∀ x ∈ l, p x = true → x = c) :
    l.find? p = some c := by
  induction l with
  | nil => cases hc
  | cons a rest ih =>
    by_cases ha : p a = true
    · have := hu a (List.mem_cons_self a rest) ha
      rw [List.find?_cons, ha]
      rw [this]
    · have hc' : c ∈ rest := by
        rcases List.mem_cons.mp hc with rfl | h
        · exact absurd hpc ha
        · exact h
      rw [Bool.not_eq_true] at ha
      rw [List.find?_cons, ha]
      exact ih hc' (fun x hx => hu x (List.mem_cons_of_mem _ hx))

lemma get_model_hit_eq (fs : ModelsFS) (mid : String) (e : MEntry) :
    get_model_hit fs mid e
      = (modelHitSpace fs e).find? (fun r => fidOf r == mid) := by
  unfold get_model_hit modelHitSpace
  cases hd : e.isDir with
  | true => simp
  | false =>
    simp only [Bool.false_eq_true, if_false]
    cases hs : pySuffixEq (entryName e) ".xml" with
    | false => simp
    | true =>
      cases hfd : (fidOf [entryName e] == mid) with
      | false => simp [List.find?_cons, hfd]
      | true => simp [List.find?_cons, hfd]

lemma find?_append_first {α : Type} (p : α → Bool) (l₁ l₂ : List α) :
    (l₁ ++ l₂).find? p
      = (match l₁.find? p with
         | some r => some r
         | none => l₂.find? p) := by
  induction l₁ with
  | nil => simp
  | cons a l ih =>
    by_cases h : p a = true
    · simp [List.find?_cons, h]
    · rw [Bool.not_eq_true] at h
      simp only [List.cons_append, List.find?_cons, h]
      exact ih

lemma get_model_scan_eq (fs : ModelsFS) (mid : String) (l : List MEntry) :
    get_model_scan fs mid l
      = (l.flatMap (modelHitSpace fs)).find? (fun r => fidOf r == mid) := by
  induction l with
  | nil => rfl
  | cons e rest ih =>
    unfold get_model_scan
    rw [get_model_hit_eq, List.flatMap_cons, find?_append_first]
    cases hfe : (modelHitSpace fs e).find? (fun r => fidOf r == mid) with
    | none => simpa using ih
    | some r => simp

lemma get_model_eq_find (fs : ModelsFS) (mid : String) :
    get_model fs mid
      = (modelCandidates fs).find? (fun r => fidOf r == mid) := by
  unfold get_model modelCandidates
  exact get_model_scan_eq fs mid (rootEntries fs)

lemma get_model_of_unique (fs : ModelsFS) (m : Comps)
    (hm : m ∈ modelCandidates fs)
    (hmu : ∀ c ∈ modelCandidates fs, fidOf c = fidOf m → c = m) :
    get_model fs (fidOf m) = some m := by
  rw [get_model_eq_find]
  exact find?_eq_some_of_unique _ _ m hm (by simp)
    (fun x hx hpx => hmu x hx (beq_iff_eq.mp hpx))

/-- C3: for an asset currently present under a root whose derived ID is unique
among the present assets (the spec's no-collision invariant), Get-by-ID of the
ID derived from its relative path resolves to exactly that asset's path — for
a trajectory via `get_trajectory` and for a model via `get_model` — and after
`delete_trajectory` of that ID the same Get-by-ID call returns `None`
(NotFound). -/
theorem get_by_id_roundtrip_delete (ts : List TrajFile) (f : TrajFile)
    (fs : ModelsFS) (m : Comps)
    (hf : f ∈ ts) (hext : trajExtOK f.name = true)
    (hnd : (ts.map TrajFile.relPath).Nodup)
    (huniq : ∀ g ∈ ts, trajExtOK g.name = true →
      StorageManager._get_file_id (joinS g.relPath)
        = StorageManager._get_file_id (joinS f.relPath) → g.relPath = f.relPath)
    (hm : m ∈ modelCandidates fs)
    (hmu : ∀ c ∈ modelCandidates fs, fidOf c = fidOf m → c = m) :
    get_trajectory ts (StorageManager._get_file_id (joinS f.relPath))
      = some f.relPath ∧
    (delete_trajectory ts (StorageManager._get_file_id (joinS f.relPath))).1
      = true ∧
    get_trajectory
      (delete_trajectory ts (StorageManager._get_file_id (joinS f.relPath))).2
      (StorageManager._get_file_id (joinS f.relPath)) = none ∧
    get_model fs (fidOf m) = some m := by
  have h1 := get_trajectory_found ts f hf hext hnd huniq
  refine ⟨h1, ?_, ?_, get_model_of_unique fs m hm hmu⟩
  · unfold delete_trajectory
    rw [h1]
  · unfold delete_trajectory
    rw [h1]
    apply get_trajectory_none
    intro g hg hgx hgid
    have hgts := mem_of_mem_removeFirst ts f.relPath g hg
    have := huniq g hgts hgx hgid
    exact removeFirst_relPath_ne ts f.relPath hnd g hg this

/-- Witness for C3: one trajectory under category `loco`, and a models root
with one model directory. -/
theorem get_by_id_roundtrip_delete_witness :
    get_trajectory [(⟨["loco"], "walk.npy", 4, 8, .npy [10, 3]⟩ : TrajFile)]
        (StorageManager._get_file_id "loco/walk.npy") = some ["loco", "walk.npy"] ∧
    get_trajectory
        (delete_trajectory [(⟨["loco"], "walk.npy", 4, 8, .npy [10, 3]⟩ : TrajFile)]
          (StorageManager._get_file_id "loco/walk.npy")).2
        (StorageManager._get_file_id "loco/walk.npy") = none ∧
    get_model (ModelsFS.mk [⟨["M"], true⟩, ⟨["M", "robot.xml"], false⟩])
        (fidOf ["M", "robot.xml"]) = some ["M", "robot.xml"] := by
  have h := get_by_id_roundtrip_delete
    [(⟨["loco"], "walk.npy", 4, 8, .npy [10, 3]⟩ : TrajFile)]
    (⟨["loco"], "walk.npy", 4, 8, .npy [10, 3]⟩ : TrajFile)
    (ModelsFS.mk [⟨["M"], true⟩, ⟨["M", "robot.xml"], false⟩])
    ["M", "robot.xml"]
    (by decide) (by decide) (by decide) (by decide) (by decide) (by decide)
  exact ⟨h.1, h.2.2.1, h.2.2.2⟩

/-! ### Claims C2 and C10 -/

lemma foldl_normStep_no_dotdot (l : Comps) (h : ∀ c ∈ l, c ≠ "..") :
    ∀ acc, List.foldl normStep acc l = acc ++ l := by
  induction l with
  | nil => intro acc; simp
  | cons c cs ih =>
    intro acc
    have hc : c ≠ ".." := h c (List.mem_cons_self _ _)
    rw [List.foldl_cons,
      show normStep acc c = acc ++ [c] from by simp [normStep, hc],
      ih (fun x hx => h x (List.mem_cons_of_mem _ hx)) (acc ++ [c])]
    simp

lemma normA_no_dotdot (l : Comps) (h : ∀ c ∈ l, c ≠ "..") : normA l = l := by
  unfold normA
  rw [foldl_normStep_no_dotdot l h []]
  simp

lemma statKind_success (mroot : Comps) (fs : ModelsFS) :
    ∀ (l cur : Comps) (k : Bool), statKind mroot fs cur l = some k →
      kindAbs mroot fs (List.foldl normStep cur l) = some k := by
  intro l
  induction l with
  | nil => intro cur k h; simpa [statKind] using h
  | cons c rest ih =>
    intro cur k h
    unfold statKind at h
    split at h
    · rw [List.foldl_cons]
      exact ih (normStep cur c) k h
    · exact Option.noConfusion h

lemma kindOfRel_of_entry (fs : ModelsFS)
    (hnd : (fs.entries.map MEntry.path).Nodup)
    (e : MEntry) (he : e ∈ fs.entries) (hne : e.path ≠ []) :
    kindOfRel fs e.path = some e.isDir := by
  unfold kindOfRel
  rw [if_neg hne]
  have hfind : fs.entries.find? (fun x => x.path == e.path) = some e := by
    apply find?_eq_some_of_unique _ _ e he (by simp)
    intro x hx hpx
    exact List.inj_on_of_nodup_map hnd hx he (beq_iff_eq.mp hpx)
  rw [hfind]
  rfl

lemma modelCandidates_shape (fs : ModelsFS) (m : Comps)
    (hm : m ∈ modelCandidates fs) :
    ∃ e3 ∈ fs.entries, e3.path = m ∧
      (m.length = 1 ∨
       (m.length = 2 ∧
        ∃ e2 ∈ fs.entries, e2.path = m.take 1 ∧ e2.isDir = true)) := by
  unfold modelCandidates at hm
  obtain ⟨e, heR, hme⟩ := List.mem_flatMap.mp hm
  have he : e ∈ fs.entries := (List.mem_filter.mp heR).1
  have hlen : e.path.length = 1 := by
    have := (List.mem_filter.mp heR).2
    simpa using this
  obtain ⟨x, hx⟩ := List.length_eq_one.mp hlen
  have hname : entryName e = x := by rw [entryName, hx]; rfl
  unfold modelHitSpace at hme
  split at hme
  next hd =>
    unfold globXml at hme
    obtain ⟨e3, he3f, rfl⟩ := List.mem_map.mp hme
    have h3 := List.mem_filter.mp he3f
    have hcond := h3.2
    have hlen2 : e3.path.length = 2 := by
      have := ((Bool.and_eq_true _ _).mp ((Bool.and_eq_true _ _).mp hcond).1).1
      simpa using this
    have hhead : e3.path.head? = some (entryName e) := by
      have := ((Bool.and_eq_true _ _).mp ((Bool.and_eq_true _ _).mp hcond).1).2
      simpa using this
    refine ⟨e3, h3.1, rfl, Or.inr ⟨hlen2, e, he, ?_, hd⟩⟩
    obtain ⟨a, b, hab⟩ := List.length_eq_two.mp hlen2
    rw [hab] at hhead
    simp only [List.head?_cons, Option.some.injEq] at hhead
    rw [hab, hx, hhead, hname]
    simp
  next hd =>
    split at hme
    next hs =>
      have hmx : m = [entryName e] := by simpa using hme
      subst hmx
      exact ⟨e, he, by rw [hx, hname], Or.inl rfl⟩
    next hs => exact absurd hme (by simp)

lemma get_file_unfold_some (mroot : Comps) (fs : ModelsFS) (mid rel : String)
    (m : Comps) (hm : get_model fs mid = some m) :
    get_file_in_model_directory mroot fs mid rel =
      (if mroot.isPrefixOf (normA (requestedPath mroot rel)) then
        if statKind mroot fs [] (requestedPath mroot rel) == some false then
          if m.length = 1 then
            if requestedPath mroot rel = mroot ++ m
            then some (requestedPath mroot rel) else none
          else
            if (normA (mroot ++ m.dropLast)).isPrefixOf
                (normA (requestedPath mroot rel))
            then some (requestedPath mroot rel) else none
        else none
      else none) := by
  unfold get_file_in_model_directory
  rw [hm]

lemma get_file_some_char (mroot : Comps) (fs : ModelsFS) (mid rel : String)
    (m : Comps) (p : Comps) (hm : get_model fs mid = some m)
    (hp : get_file_in_model_directory mroot fs mid rel = some p) :
    p = requestedPath mroot rel ∧
    mroot.isPrefixOf (normA p) = true ∧
    statKind mroot fs [] p = some false ∧
    ((m.length = 1 ∧ p = mroot ++ m) ∨
     (m.length ≠ 1 ∧
       (normA (mroot ++ m.dropLast)).isPrefixOf (normA p) = true)) := by
  rw [get_file_unfold_some mroot fs mid rel m hm] at hp
  split at hp
  next hpfx =>
    split at hp
    next hstat =>
      split at hp
      next hlen =>
        split at hp
        next heq =>
          have hpe := (Option.some.inj hp).symm
          subst hpe
          exact ⟨rfl, hpfx, beq_iff_eq.mp hstat, Or.inl ⟨hlen, heq⟩⟩
        next heq => exact Option.noConfusion hp
      next hlen =>
        split at hp
        next hdp =>
          have hpe := (Option.some.inj hp).symm
          subst hpe
          exact ⟨rfl, hpfx, beq_iff_eq.mp hstat, Or.inr ⟨hlen, hdp⟩⟩
        next hdp => exact Option.noConfusion hp
    next hstat => exact Option.noConfusion hp
  next hpfx => exact Option.noConfusion hp

lemma get_file_escape_none (mroot : Comps) (fs : ModelsFS) (mid rel : String)
    (h : mroot.isPrefixOf (normA (requestedPath mroot rel)) = false) :
    get_file_in_model_directory mroot fs mid rel = none := by
  unfold get_file_in_model_directory
  cases hg : get_model fs mid with
  | none => rfl
  | some m => simp [h]

/-- C2: model-file access is confined to the owning model.  Given a resolved
model `m` (wf state: resolved roots and entry paths contain no literal `..`,
entry paths are distinct): (i) any returned path normalizes inside the models
root; for a bare root model it normalizes to exactly the model's own file, and
for a directory model it normalizes strictly inside the owning model's
directory; (ii) a request that normalizes outside the models root yields
`None`, no matter what exists elsewhere on disk (the guard runs before any
filesystem access); (iii) a request that normalizes into a different model's
directory yields `None`. -/
theorem model_file_access_confined (mroot : Comps) (fs : ModelsFS)
    (mid rel : String) (m : Comps)
    (hroot : ∀ c ∈ mroot, c ≠ "..")
    (hfs : ∀ e ∈ fs.entries, ∀ c ∈ e.path, c ≠ "..")
    (hnd : (fs.entries.map MEntry.path).Nodup)
    (hm : get_model fs mid = some m) :
    (∀ p, get_file_in_model_directory mroot fs mid rel = some p →
      mroot.isPrefixOf (normA p) = true ∧
      (m.length = 1 → normA p = mroot ++ m) ∧
      (m.length ≠ 1 →
        (mroot ++ m.dropLast).isPrefixOf (normA p) = true ∧
        normA p ≠ mroot ++ m.dropLast)) ∧
    (mroot.isPrefixOf (normA (requestedPath mroot rel)) = false →
      get_file_in_model_directory mroot fs mid rel = none) ∧
    (∀ d rest, rest ≠ [] →
      normA (requestedPath mroot rel) = mroot ++ d :: rest →
      m.take 1 ≠ [d] →
      get_file_in_model_directory mroot fs mid rel = none) := by
  have hcand : m ∈ modelCandidates fs := by
    rw [get_model_eq_find] at hm
    exact List.mem_of_find?_eq_some hm
  obtain ⟨e3, he3, he3p, hshape⟩ := modelCandidates_shape fs m hcand
  have hmwf : ∀ c ∈ m, c ≠ ".." :=
    fun c hc => hfs e3 he3 c (by rw [he3p]; exact hc)
  have hwfall : ∀ c ∈ mroot ++ m, c ≠ ".." := fun c hc => by
    rcases List.mem_append.mp hc with h | h
    · exact hroot c h
    · exact hmwf c h
  have hwfdl : ∀ c ∈ mroot ++ m.dropLast, c ≠ ".." := fun c hc => by
    rcases List.mem_append.mp hc with h | h
    · exact hroot c h
    · exact hmwf c (List.dropLast_subset m h)
  refine ⟨?_, get_file_escape_none mroot fs mid rel, ?_⟩
  · intro p hp
    obtain ⟨hpreq, hpfx, hstat, hcase⟩ :=
      get_file_some_char mroot fs mid rel m p hm hp
    refine ⟨hpfx, ?_, ?_⟩
    · intro hlen1
      rcases hcase with ⟨_, hpe⟩ | ⟨hne, _⟩
      · rw [hpe]
        exact normA_no_dotdot _ hwfall
      · exact absurd hlen1 hne
    · intro hne1
      rcases hcase with ⟨hl1, _⟩ | ⟨_, hdpfx⟩
      · exact absurd hl1 hne1
      · rw [normA_no_dotdot _ hwfdl] at hdpfx
        refine ⟨hdpfx, ?_⟩
        intro hEq
        rcases hshape with hl1 | ⟨hl2, e2, he2, he2p, he2d⟩
        · exact hne1 hl1
        · have hka := statKind_success mroot fs p [] false hstat
          rw [show List.foldl normStep [] p = normA p from rfl, hEq] at hka
          obtain ⟨a, b, hab⟩ := List.length_eq_two.mp hl2
          have hd1 : m.dropLast = [a] := by rw [hab]; rfl
          have htk : m.take 1 = [a] := by rw [hab]; rfl
          rw [hd1] at hka
          unfold kindAbs at hka
          have hc1 : ((mroot ++ [a]).isPrefixOf mroot) ≠ true := by
            intro hcontra
            have hle := (List.isPrefixOf_iff_prefix.mp hcontra).length_le
            simp at hle
          have hc2 : (mroot.isPrefixOf (mroot ++ [a])) = true :=
            List.isPrefixOf_iff_prefix.mpr (List.prefix_append _ _)
          rw [if_neg hc1, if_pos hc2, List.drop_left] at hka
          have hk2 : kindOfRel fs [a] = some true := by
            have hk := kindOfRel_of_entry fs hnd e2 he2
              (by rw [he2p, htk]; simp)
            rw [he2p, htk, he2d] at hk
            exact hk
          rw [hk2] at hka
          exact Option.noConfusion hka (fun h => Bool.noConfusion h)
  · intro d rest hrest hnorm htake
    by_contra hne
    obtain ⟨p, hp⟩ := Option.ne_none_iff_exists'.mp hne
    obtain ⟨hpreq, hpfx, hstat, hcase⟩ :=
      get_file_some_char mroot fs mid rel m p hm hp
    have hnp : normA p = mroot ++ d :: rest := by rw [hpreq]; exact hnorm
    rcases hcase with ⟨hl1, hpe⟩ | ⟨hne1, hdpfx⟩
    · have hnm : normA p = mroot ++ m := by
        rw [hpe]
        exact normA_no_dotdot _ hwfall
      have hm2 : m = d :: rest := List.append_cancel_left (hnm.symm.trans hnp)
      apply htake
      rw [hm2]
      rfl
    · rw [normA_no_dotdot _ hwfdl, hnp] at hdpfx
      rcases hshape with hl1 | ⟨hl2, _⟩
      · exact hne1 hl1
      obtain ⟨a, b, hab⟩ := List.length_eq_two.mp hl2
      have hd1 : m.dropLast = [a] := by rw [hab]; rfl
      rw [hd1] at hdpfx
      have hpp := List.isPrefixOf_iff_prefix.mp hdpfx
      rw [List.prefix_append_right_inj] at hpp
      have had := (List.cons_prefix_cons.mp hpp).1
      apply htake
      rw [hab, had]
      rfl

/-- Witness for C2: two directory models `A` and `B`; requesting `B/b.xml`
through model `A`'s accessor (a path into a different model's directory)
yields `None` even though that file exists under the models root. -/
theorem model_file_access_confined_witness :
    get_file_in_model_directory ["data", "models"]
      (ModelsFS.mk [⟨["A"], true⟩, ⟨["A", "a.xml"], false⟩,
        ⟨["A", "mesh.stl"], false⟩, ⟨["B"], true⟩, ⟨["B", "b.xml"], false⟩])
      (fidOf ["A", "a.xml"]) "B/b.xml" = none := by
  have h := model_file_access_confined ["data", "models"]
    (ModelsFS.mk [⟨["A"], true⟩, ⟨["A", "a.xml"], false⟩,
      ⟨["A", "mesh.stl"], false⟩, ⟨["B"], true⟩, ⟨["B", "b.xml"], false⟩])
    (fidOf ["A", "a.xml"]) "B/b.xml" ["A", "a.xml"]
    (by decide) (by decide) (by decide) (by decide)
  exact h.2.2 "B" ["b.xml"] (by decide) (by decide) (by decide)

/-- C10: for a bare model whose description file sits directly at the models
root, the single-file accessor returns a path only when the requested
relative path resolves to the model's own description file, and any request
that does not resolve to that file — including other existing files at the
models root — yields `None`. -/
theorem bare_model_single_file_access (mroot : Comps) (fs : ModelsFS)
    (mid rel : String) (nm : String)
    (hroot : ∀ c ∈ mroot, c ≠ "..")
    (hfs : ∀ e ∈ fs.entries, ∀ c ∈ e.path, c ≠ "..")
    (hm : get_model fs mid = some [nm]) :
    (∀ p, get_file_in_model_directory mroot fs mid rel = some p →
      normA p = mroot ++ [nm]) ∧
    (normA (requestedPath mroot rel) ≠ mroot ++ [nm] →
      get_file_in_model_directory mroot fs mid rel = none) := by
  have hcand : [nm] ∈ modelCandidates fs := by
    rw [get_model_eq_find] at hm
    exact List.mem_of_find?_eq_some hm
  obtain ⟨e3, he3, he3p, _⟩ := modelCandidates_shape fs [nm] hcand
  have hwf : ∀ c ∈ mroot ++ [nm], c ≠ ".." := fun c hc => by
    rcases List.mem_append.mp hc with h | h
    · exact hroot c h
    · exact hfs e3 he3 c (by rw [he3p]; exact h)
  constructor
  · intro p hp
    obtain ⟨hpreq, _, _, hcase⟩ :=
      get_file_some_char mroot fs mid rel [nm] p hm hp
    rcases hcase with ⟨_, hpe⟩ | ⟨hne1, _⟩
    · rw [hpe]
      exact normA_no_dotdot _ hwf
    · exact absurd rfl hne1
  · intro hne
    by_contra hres
    obtain ⟨p, hp⟩ := Option.ne_none_iff_exists'.mp hres
    obtain ⟨hpreq, _, _, hcase⟩ :=
      get_file_some_char mroot fs mid rel [nm] p hm hp
    rcases hcase with ⟨_, hpe⟩ | ⟨hne1, _⟩
    · apply hne
      rw [← hpreq, hpe]
      exact normA_no_dotdot _ hwf
    · exact absurd rfl hne1

/-- Witness for C10: a bare root model `solo.xml` next to another root file
`other.txt`; requesting `other.txt` yields `None`. -/
theorem bare_model_single_file_access_witness :
    get_file_in_model_directory ["data", "models"]
      (ModelsFS.mk [⟨["solo.xml"], false⟩, ⟨["other.txt"], false⟩])
      (fidOf ["solo.xml"]) "other.txt" = none := by
  have h := bare_model_single_file_access ["data", "models"]
    (ModelsFS.mk [⟨["solo.xml"], false⟩, ⟨["other.txt"], false⟩])
    (fidOf ["solo.xml"]) "other.txt" "solo.xml"
    (by decide) (by decide) (by decide)
  exact h.2 (by decide)

end MotionLib
